import Mathlib

/-!
Shallow embedding of the cart / order-placement / popularity core of the
food-ordering Flask application (src/models.py, src/routes/customer.py,
src/routes/restaurant.py).

Machine conventions:
* `Nat` ids stand for the integer primary keys; primary keys are unique,
  so SQL joins on `id` are modelled with `List.find?` / `List.any` over a
  row list.
* Monetary `Numeric(10,2)` columns are modelled as `Int` (fixed-point,
  the claims never depend on the scale).
* `DateTime` columns are a calendar day (`day`) plus a time-of-day tick
  (`tod`); `func.date` projects the day, `datetime.min.time()` is tick 0
  and `datetime.max.time()` is tick `maxTod`.
-/

/-- A `DateTime` value: calendar day plus time-of-day tick. -/
structure DateTime where
  day : Nat
  tod : Nat
deriving Repr, DecidableEq

/-- Last time-of-day tick of a day (`datetime.max.time()`, microsecond
resolution: 23:59:59.999999). -/
def maxTod : Nat := 86399999999

/-- `date(t)` as computed by `func.date(Order.created_at)`. -/
def dateOf (t : DateTime) : Nat := t.day

/-- `datetime.combine(today, datetime.min.time())`. -/
def startOfDay (day : Nat) : DateTime := ⟨day, 0⟩

/-- `datetime.combine(today, datetime.max.time())`. -/
def endOfDay (day : Nat) : DateTime := ⟨day, maxTod⟩

/-- Chronological comparison of `DateTime` values (lexicographic). -/
def dtLe (a b : DateTime) : Bool :=
  a.day < b.day || (a.day == b.day && a.tod ≤ b.tod)

/-- Row of the `menu_items` table (the columns the core logic reads). -/
structure MenuItem where
  id : Nat
  price : Int
  restaurant_id : Nat
  is_available : Bool
deriving Repr, DecidableEq

/-- Row of the `cart` table. -/
structure CartEntry where
  id : Nat
  user_id : Nat
  menu_item_id : Nat
  quantity : Int
deriving Repr, DecidableEq

/-- Row of the `orders` table (the columns the core logic reads). -/
structure Order where
  id : Nat
  customer_id : Nat
  restaurant_id : Nat
  total_amount : Int
  status : String
  created_at : DateTime
  updated_at : DateTime
deriving Repr, DecidableEq

/-- Row of the `order_items` table. -/
structure OrderItem where
  id : Nat
  order_id : Nat
  menu_item_id : Nat
  quantity : Int
  price : Int
deriving Repr, DecidableEq

/-- Row of the `restaurants` table (the columns the core logic reads). -/
structure Restaurant where
  id : Nat
  owner_id : Nat
deriving Repr, DecidableEq

/-- The committed database state, plus autoincrement counters for the
primary keys the placement path allocates. -/
structure DB where
  menu_items : List MenuItem
  cart : List CartEntry
  orders : List Order
  order_items : List OrderItem
  restaurants : List Restaurant
  nextCartId : Nat
  nextOrderId : Nat
  nextOrderItemId : Nat
deriving Repr, DecidableEq

/-- `MenuItem.query.get(menu_item_id)` — primary-key lookup. -/
def findMenuItem (db : DB) (menuItemId : Nat) : Option MenuItem :=
  db.menu_items.find? (fun m => m.id == menuItemId)

/-- The JSON responses the routes return: `jsonify(success, message)`. -/
structure ApiResponse where
  success : Bool
  message : String
deriving Repr, DecidableEq

/-! ### Cart store: `add_to_cart` (src/routes/customer.py lines 294-337) -/

/-- `add_to_cart`: `get_or_404` the menu item (a missing item raises,
the handler catches and answers with a failure response, leaving the
store untouched); if a cart row for `(user_id, menu_item_id)` exists its
quantity is incremented by `quantity`, else a new row is inserted with
that quantity. No availability or quantity validation is performed. -/
def add_to_cart (db : DB) (userId menuItemId : Nat) (quantity : Int) :
    ApiResponse × DB :=
  match findMenuItem db menuItemId with
  | none => (⟨false, "Error adding item to cart"⟩, db)
  | some _ =>
    match db.cart.find?
        (fun c => c.user_id == userId && c.menu_item_id == menuItemId) with
    | some existing =>
      (⟨true, "Item added to cart!"⟩,
        { db with cart := db.cart.map (fun e =>
            if e.id == existing.id then
              { e with quantity := e.quantity + quantity } else e) })
    | none =>
      (⟨true, "Item added to cart!"⟩,
        { db with
            cart := db.cart ++ [⟨db.nextCartId, userId, menuItemId, quantity⟩],
            nextCartId := db.nextCartId + 1 })

/-! ### Cart store: `update_cart` (src/routes/customer.py lines 363-387) -/

/-- `update_cart`: `get_or_404` the cart row (missing row → failure
response, store untouched); reject a row not owned by the caller with
`Unauthorized`; a quantity ≤ 0 deletes the row, a positive quantity
overwrites it. -/
def update_cart (db : DB) (userId cartItemId : Nat) (quantity : Int) :
    ApiResponse × DB :=
  match db.cart.find? (fun c => c.id == cartItemId) with
  | none => (⟨false, "Error updating cart"⟩, db)
  | some cartItem =>
    if cartItem.user_id != userId then
      (⟨false, "Unauthorized"⟩, db)
    else if quantity ≤ 0 then
      (⟨true, "Cart updated!"⟩,
        { db with cart := db.cart.filter (fun e => e.id != cartItem.id) })
    else
      (⟨true, "Cart updated!"⟩,
        { db with cart := db.cart.map (fun e =>
            if e.id == cartItem.id then { e with quantity := quantity } else e) })

/-- One customer-facing cart mutation, for reasoning about operation
sequences. -/
inductive CartOp
  | add (userId menuItemId : Nat) (quantity : Int)
  | update (userId cartItemId : Nat) (quantity : Int)
deriving Repr, DecidableEq

/-- Run a sequence of cart mutations, discarding the responses. -/
def runCartOps (db : DB) (ops : List CartOp) : DB :=
  ops.foldl
    (fun d op =>
      match op with
      | .add u m q => (add_to_cart d u m q).2
      | .update u c q => (update_cart d u c q).2)
    db

/-- Run a sequence of `add_to_cart` calls, discarding the responses. -/
def runAdds (db : DB) (ops : List (Nat × Nat × Int)) : DB :=
  ops.foldl (fun d op => (add_to_cart d op.1 op.2.1 op.2.2).2) db

/-- At most one cart row per `(user_id, menu_item_id)` pair. -/
def CartKeyUnique (db : DB) : Prop :=
  db.cart.Pairwise (fun a b =>
    ¬(a.user_id = b.user_id ∧ a.menu_item_id = b.menu_item_id))

/-! ### Order placement engine: `place_order`
(src/routes/customer.py lines 413-479)

The handler stages its writes on the ORM session (`db.session.add`,
`db.session.flush`, `Cart.query...delete()`) and makes them visible only
at `db.session.commit()`; on any exception it runs `db.session.rollback()`
and answers with a generic failure.  The session is modelled as a list of
pending `Change`s applied to the committed `DB` only on a successful
commit.  Each storage operation is a potential fault point: a fault oracle
`faults : Nat → Bool` says whether the k-th storage operation of the
invocation raises, which models an injected storage error at that step. -/

/-- A staged (uncommitted) write of the placement path. -/
inductive Change
  | addOrder (o : Order)
  | addOrderItem (oi : OrderItem)
  | clearCart (userId : Nat)
deriving Repr, DecidableEq

/-- Apply one committed change to the database. -/
def applyChange (db : DB) : Change → DB
  | .addOrder o => { db with orders := db.orders ++ [o] }
  | .addOrderItem oi => { db with order_items := db.order_items ++ [oi] }
  | .clearCart u => { db with cart := db.cart.filter (fun c => !(c.user_id == u)) }

/-- In-flight state of one `place_order` invocation: storage-operation
counter, staged writes, and the session's view of the autoincrement
counters (advanced by `flush`). -/
structure PlaceState where
  tick : Nat
  changes : List Change
  nextOid : Nat
  nextOiid : Nat
deriving Repr, DecidableEq

/-- One storage operation: consult the fault oracle at the current tick
(`none` = the operation raised), otherwise advance the tick and stage the
optional write. -/
def stOp (faults : Nat → Bool) (s : PlaceState) (c : Option Change) :
    Option PlaceState :=
  if faults s.tick then none
  else some { s with
    tick := s.tick + 1,
    changes := match c with | some ch => s.changes ++ [ch] | none => s.changes }

/-- Resolve every cart row to its menu item (`item.menu_item`); a dangling
`menu_item_id` makes the relationship access raise (`none`). -/
def resolveCart (db : DB) (items : List CartEntry) :
    Option (List (CartEntry × MenuItem)) :=
  items.mapM (fun c => (findMenuItem db c.menu_item_id).map (fun m => (c, m)))

/-- `restaurants.setdefault(rid, []).append(item)`: partition the resolved
cart rows by the menu item's `restaurant_id`, keeping first-appearance
order of the restaurants and cart order within each partition. -/
def groupByRestaurant (pairs : List (CartEntry × MenuItem)) :
    List (Nat × List (CartEntry × MenuItem)) :=
  pairs.foldl
    (fun acc p =>
      if acc.any (fun g => g.1 == p.2.restaurant_id) then
        acc.map (fun g =>
          if g.1 == p.2.restaurant_id then (g.1, g.2 ++ [p]) else g)
      else acc ++ [(p.2.restaurant_id, [p])])
    []

/-- One step of the grouping fold (named for the invariant proofs;
`groupByRestaurant` is definitionally this step folded from `[]`). -/
def gbStep (acc : List (Nat × List (CartEntry × MenuItem)))
    (p : CartEntry × MenuItem) : List (Nat × List (CartEntry × MenuItem)) :=
  if acc.any (fun g => g.1 == p.2.restaurant_id) then
    acc.map (fun g =>
      if g.1 == p.2.restaurant_id then (g.1, g.2 ++ [p]) else g)
  else acc ++ [(p.2.restaurant_id, [p])]

/-- `total = sum(item.menu_item.price * item.quantity for item in items)`. -/
def partitionTotal (items : List (CartEntry × MenuItem)) : Int :=
  (items.map (fun p => p.2.price * p.1.quantity)).sum

/-- One iteration of the order-item loop: build the `OrderItem` for one
cart row of the partition (with the flushed `order.id`) and stage it
(one storage op). -/
def addItemStep (faults : Nat → Bool) (orderId : Nat) (s : PlaceState)
    (p : CartEntry × MenuItem) : Option PlaceState := do
  let oi : OrderItem :=
    ⟨s.nextOiid, orderId, p.1.menu_item_id, p.1.quantity, p.2.price⟩
  let s ← stOp faults s (some (.addOrderItem oi))
  pure { s with nextOiid := s.nextOiid + 1 }

/-- Place one restaurant partition: `db.session.add(order)` (one storage
op), `db.session.flush()` (one storage op, assigns `order.id`), then one
`db.session.add(order_item)` per cart row (one storage op each). -/
def placePartition (faults : Nat → Bool) (userId : Nat) (now : DateTime)
    (s : PlaceState) (rid : Nat) (items : List (CartEntry × MenuItem)) :
    Option PlaceState :=
  let order : Order :=
    ⟨s.nextOid, userId, rid, partitionTotal items, "pending", now, now⟩
  do
    let s ← stOp faults s (some (.addOrder order))
    let s ← stOp faults { s with nextOid := s.nextOid + 1 } none
    items.foldlM (addItemStep faults order.id) s

/-- `place_order` (AJAX handler).  Reads the caller's cart from the
committed store; an empty cart is answered immediately with the
empty-cart failure.  Otherwise it partitions the cart by restaurant,
stages one `Order` plus its `OrderItem`s per partition, stages the cart
clearing (one storage op), and commits (one storage op).  Any raising
step — including a dangling menu-item relationship during grouping —
lands in the `except` branch: rollback, generic failure, committed store
untouched. -/
def place_order (faults : Nat → Bool) (db : DB) (userId : Nat)
    (now : DateTime) : ApiResponse × DB :=
  let cart_items := db.cart.filter (fun c => c.user_id == userId)
  if cart_items.isEmpty then
    (⟨false, "Your cart is empty."⟩, db)
  else
    match resolveCart db cart_items with
    | none => (⟨false, "Error placing order. Please try again."⟩, db)
    | some pairs =>
      let s0 : PlaceState := ⟨0, [], db.nextOrderId, db.nextOrderItemId⟩
      let run : Option PlaceState := do
        let s ← (groupByRestaurant pairs).foldlM
          (fun s g => placePartition faults userId now s g.1 g.2) s0
        let s ← stOp faults s (some (.clearCart userId))
        stOp faults s none
      match run with
      | none => (⟨false, "Error placing order. Please try again."⟩, db)
      | some s =>
        (⟨true, "Order placed successfully!"⟩,
          { s.changes.foldl applyChange db with
              nextOrderId := s.nextOid, nextOrderItemId := s.nextOiid })

/-- The fault-free oracle: every storage operation succeeds. -/
def noFaults : Nat → Bool := fun _ => false

/-! ### Menu item price edit (src/routes/restaurant.py lines 240-296)

`edit_menu_item` overwrites the live `MenuItem.price` from the submitted
form; only the `menu_items` table is touched. -/

/-- The price update performed by `edit_menu_item`. -/
def edit_menu_item_price (db : DB) (itemId : Nat) (newPrice : Int) : DB :=
  { db with menu_items := db.menu_items.map (fun m =>
      if m.id == itemId then { m with price := newPrice } else m) }

/-! ### Order status workflow: `update_order_status`
(src/routes/restaurant.py lines 422-454) -/

/-- The fixed status enumeration accepted by the handler. -/
def validStatuses : List String :=
  ["pending", "confirmed", "preparing", "ready", "delivered", "cancelled"]

/-- `update_order_status`: `get_or_404` the order (missing → generic
failure, store untouched; a dangling `order.restaurant` relationship
raises the same way); reject a requester who does not own the order's
restaurant with `Unauthorized`; reject a status outside the enumeration
with `Invalid status`; otherwise store the new status unconditionally —
no check against the current status — and set `updated_at`. -/
def update_order_status (db : DB) (requesterId orderId : Nat)
    (newStatus : String) (now : DateTime) : ApiResponse × DB :=
  match db.orders.find? (fun o => o.id == orderId) with
  | none => (⟨false, "Error updating order status"⟩, db)
  | some o =>
    match db.restaurants.find? (fun r => r.id == o.restaurant_id) with
    | none => (⟨false, "Error updating order status"⟩, db)
    | some r =>
      if r.owner_id != requesterId then
        (⟨false, "Unauthorized"⟩, db)
      else if !(validStatuses.contains newStatus) then
        (⟨false, "Invalid status"⟩, db)
      else
        (⟨true, "Order status updated!"⟩,
          { db with orders := db.orders.map (fun o2 =>
              if o2.id == o.id then
                { o2 with status := newStatus, updated_at := now } else o2) })

/-! ### Popularity evaluator, implementation 1:
`MenuItem.is_mostly_ordered` (src/models.py lines 103-127).

The SQL join `OrderItem join Order on Order.id == OrderItem.order_id` is
modelled with `List.any` over the order table: `id` is the primary key of
`orders`, so each order item matches at most one order row. -/

/-- The rows of `OrderItem ⋈ Order` restricted to this menu item and to
orders created on the given day (`func.date(Order.created_at) == today`). -/
def itemDayRows (db : DB) (itemId : Nat) (today : Nat) : List OrderItem :=
  (db.order_items.filter (fun oi => oi.menu_item_id == itemId)).filter
    (fun oi => db.orders.any
      (fun o => o.id == oi.order_id && dateOf o.created_at == today))

/-- `MenuItem.order_quantity_today`: `sum(OrderItem.quantity)` over the
joined rows, with `scalar() or 0` mapping an empty aggregate to 0. -/
def order_quantity_today (db : DB) (itemId : Nat) (today : Nat) : Int :=
  ((itemDayRows db itemId today).map (fun oi => oi.quantity)).sum

/-- `MenuItem.has_large_single_order_today`: `first() is not None` on the
joined rows further filtered by `OrderItem.quantity > 10`. -/
def has_large_single_order_today (db : DB) (itemId : Nat) (today : Nat) :
    Bool :=
  (((itemDayRows db itemId today).filter
    (fun oi => 10 < oi.quantity)).head?).isSome

/-- `MenuItem.is_mostly_ordered`. -/
def is_mostly_ordered (db : DB) (itemId : Nat) (today : Nat) : Bool :=
  decide (10 < order_quantity_today db itemId today) ||
    has_large_single_order_today db itemId today

/-! ### Popularity evaluator, implementation 2: the inline computation in
the customer restaurant view (src/routes/customer.py lines 200-225). -/

/-- The `mostly_ordered` flag `view_restaurant` attaches to each menu
item: `coalesce(sum(quantity), 0) > 10` over the day's joined rows, or a
row with `quantity > 10` exists (`first() is not None`), both restricted
by `func.date(Order.created_at) == today`. -/
def view_restaurant_mostly_ordered (db : DB) (itemId : Nat) (today : Nat) :
    Bool :=
  let rows :=
    (db.order_items.filter (fun oi => oi.menu_item_id == itemId)).filter
      (fun oi => db.orders.any
        (fun o => o.id == oi.order_id && dateOf o.created_at == today))
  let total_quantity : Int := (rows.map (fun oi => oi.quantity)).sum
  let single_large_order : Bool :=
    ((rows.filter (fun oi => 10 < oi.quantity)).head?).isSome
  decide (10 < total_quantity) || single_large_order

/-! ### Popularity evaluator, implementation 3: the inline computation in
the public restaurant detail view (src/routes/restaurant.py lines
762-807). -/

/-- `coalesce(max(...), 0)`: the SQL `MAX` aggregate of a row list, with
`NULL` (empty aggregate) coalesced to 0. -/
def sqlMax0 : List Int → Int
  | [] => 0
  | x :: xs => xs.foldl max x

/-- The `mostly_ordered` flag `restaurant_detail` attaches to each menu
item: the joined rows are restricted by `Order.restaurant_id ==
restaurant.id` and by the day bounds `start_of_day <= created_at <=
end_of_day`; the flag is `coalesce(sum(quantity), 0) > 10` or
`coalesce(max(quantity), 0) > 10`. -/
def restaurant_detail_mostly_ordered (db : DB) (itemId restaurantId : Nat)
    (today : Nat) : Bool :=
  let rows :=
    (db.order_items.filter (fun oi => oi.menu_item_id == itemId)).filter
      (fun oi => db.orders.any
        (fun o => o.id == oi.order_id && o.restaurant_id == restaurantId &&
          dtLe (startOfDay today) o.created_at &&
          dtLe o.created_at (endOfDay today)))
  let total_quantity : Int := (rows.map (fun oi => oi.quantity)).sum
  let max_single_order : Int := sqlMax0 (rows.map (fun oi => oi.quantity))
  decide (10 < total_quantity) || decide (10 < max_single_order)

/-! ### Closed forms for the fault-free placement path, and extraction
helpers used to state the placement theorems. -/

/-- The `Order` record staged for one restaurant partition. -/
def orderOfGroup (userId : Nat) (now : DateTime) (oid rid : Nat)
    (items : List (CartEntry × MenuItem)) : Order :=
  ⟨oid, userId, rid, partitionTotal items, "pending", now, now⟩

/-- The `addOrderItem` changes staged for one partition, with sequential
order-item ids starting at `oiid`, all pointing at order `oid`. -/
def itemChanges (oid : Nat) : Nat → List (CartEntry × MenuItem) → List Change
  | _, [] => []
  | oiid, p :: rest =>
    Change.addOrderItem ⟨oiid, oid, p.1.menu_item_id, p.1.quantity, p.2.price⟩ ::
      itemChanges oid (oiid + 1) rest

/-- All changes staged by the partition loop, for order ids starting at
`oid` and order-item ids starting at `oiid`. -/
def groupChanges (userId : Nat) (now : DateTime) :
    Nat → Nat → List (Nat × List (CartEntry × MenuItem)) → List Change
  | _, _, [] => []
  | oid, oiid, g :: rest =>
    Change.addOrder (orderOfGroup userId now oid g.1 g.2) ::
      (itemChanges oid oiid g.2 ++
        groupChanges userId now (oid + 1) (oiid + g.2.length) rest)

/-- The orders staged by the partition loop, in partition order. -/
def ordersList (userId : Nat) (now : DateTime) :
    Nat → List (Nat × List (CartEntry × MenuItem)) → List Order
  | _, [] => []
  | oid, g :: rest =>
    orderOfGroup userId now oid g.1 g.2 :: ordersList userId now (oid + 1) rest

/-- The `OrderItem` rows staged for one partition (the payload of
`itemChanges`). -/
def itemRecords (oid : Nat) : Nat → List (CartEntry × MenuItem) → List OrderItem
  | _, [] => []
  | oiid, p :: rest =>
    ⟨oiid, oid, p.1.menu_item_id, p.1.quantity, p.2.price⟩ ::
      itemRecords oid (oiid + 1) rest

/-- Total number of cart rows across the partitions. -/
def groupItemCount (groups : List (Nat × List (CartEntry × MenuItem))) : Nat :=
  (groups.map (fun g => g.2.length)).sum

/-- Storage operations consumed by the partition loop. -/
def groupTicks (groups : List (Nat × List (CartEntry × MenuItem))) : Nat :=
  (groups.map (fun g => 2 + g.2.length)).sum

/-- The orders contained in a change list. -/
def changeOrders (l : List Change) : List Order :=
  l.filterMap (fun c => match c with | .addOrder o => some o | _ => none)

/-- The order items contained in a change list. -/
def changeOrderItems (l : List Change) : List OrderItem :=
  l.filterMap (fun c => match c with | .addOrderItem oi => some oi | _ => none)

/-- A cart operation whose `add` quantity (if it is an add) is ≥ 1. -/
def addQuantityPositive : CartOp → Bool
  | .add _ _ q => 1 ≤ q
  | .update _ _ _ => true

/-! ### Concrete example data used by counterexamples and witnesses. -/

/-- Two available menu items at two restaurants (the §8 scenario: ItemA
price 10 at RestaurantX = 100, ItemB price 5 at RestaurantY = 200), user
7's cart holding 3 of ItemA and 1 of ItemB. -/
def exDbTwoRest : DB :=
  ⟨[⟨1, 10, 100, true⟩, ⟨2, 5, 200, true⟩],
   [⟨0, 7, 1, 3⟩, ⟨1, 7, 2, 1⟩], [], [], [], 2, 0, 0⟩

/-- One available menu item, user 7's cart holding 1 of it. -/
def exDbOneRest : DB :=
  ⟨[⟨1, 10, 100, true⟩], [⟨0, 7, 1, 1⟩], [], [], [], 1, 0, 0⟩

/-- Same cart as `exDbOneRest` but the item belongs to restaurant 200 and
the order autoincrement starts at 5, so placement creates a different
order (id 5, restaurant 200). -/
def exDbOneRestShifted : DB :=
  ⟨[⟨1, 10, 200, true⟩], [⟨0, 7, 1, 1⟩], [], [], [], 1, 5, 0⟩

/-- One menu item that exists but is not available (`is_available =
false`); the cart is empty. -/
def exDbUnavailable : DB :=
  ⟨[⟨1, 10, 100, false⟩], [], [], [], [], 0, 0, 0⟩

/-- One available menu item and an empty cart. -/
def exDbEmptyCart : DB :=
  ⟨[⟨1, 10, 100, true⟩], [], [], [], [], 0, 0, 0⟩

/-- Order history for the popularity claims: menu item 1 of restaurant
100 with a single order item of quantity 11 on day 5 (order 0), and menu
item 2 with two order items of quantities 6 and 4 (day-sum 10) on day 5
(orders 0 and 1). -/
def exDbPopular : DB :=
  ⟨[⟨1, 10, 100, true⟩, ⟨2, 5, 100, true⟩], [],
   [⟨0, 7, 100, 140, "pending", ⟨5, 9⟩, ⟨5, 9⟩⟩,
    ⟨1, 8, 100, 20, "pending", ⟨5, 100⟩, ⟨5, 100⟩⟩],
   [⟨0, 0, 1, 11, 10⟩, ⟨1, 0, 2, 6, 5⟩, ⟨2, 1, 2, 4, 5⟩],
   [⟨100, 42⟩], 0, 2, 3⟩

/-- A delivered order at restaurant 100, owned by user 42. -/
def exDbDelivered : DB :=
  ⟨[], [], [⟨0, 7, 100, 30, "delivered", ⟨5, 9⟩, ⟨5, 9⟩⟩], [],
   [⟨100, 42⟩], 0, 1, 0⟩

/-! ## Helper lemmas -/

theorem filter_head_isSome_iff {α : Type} (p : α → Bool) (l : List α) :
    ((l.filter p).head?).isSome = true ↔ ∃ x ∈ l, p x = true := by
  rw [List.head?_isSome]
  constructor
  · intro h
    rcases List.exists_mem_of_ne_nil _ h with ⟨x, hx⟩
    exact ⟨x, (List.mem_filter.mp hx).1, (List.mem_filter.mp hx).2⟩
  · rintro ⟨x, hx, hp⟩ hnil
    exact (List.filter_eq_nil_iff.mp hnil) x hx hp

theorem lt_foldl_max_iff (a : Int) (xs : List Int) :
    ∀ x : Int, a < xs.foldl max x ↔ a < x ∨ ∃ z ∈ xs, a < z := by
  induction xs with
  | nil => intro x; simp
  | cons y ys ih =>
    intro x
    rw [List.foldl_cons, ih (max x y)]
    constructor
    · rintro (h | ⟨z, hz, haz⟩)
      · rcases lt_max_iff.mp h with h | h
        · exact Or.inl h
        · exact Or.inr ⟨y, List.mem_cons_self y ys, h⟩
      · exact Or.inr ⟨z, List.mem_cons_of_mem y hz, haz⟩
    · rintro (h | ⟨z, hz, haz⟩)
      · exact Or.inl (lt_max_iff.mpr (Or.inl h))
      · rcases List.mem_cons.mp hz with hz | hz
        · exact Or.inl (lt_max_iff.mpr (Or.inr (hz ▸ haz)))
        · exact Or.inr ⟨z, hz, haz⟩

theorem lt_sqlMax0_iff (a : Int) (ha : 0 ≤ a) (l : List Int) :
    a < sqlMax0 l ↔ ∃ x ∈ l, a < x := by
  cases l with
  | nil => simp [sqlMax0]; omega
  | cons x xs =>
    simp only [sqlMax0]
    rw [lt_foldl_max_iff a xs x]
    constructor
    · rintro (h | ⟨z, hz, haz⟩)
      · exact ⟨x, List.mem_cons_self x xs, h⟩
      · exact ⟨z, List.mem_cons_of_mem x hz, haz⟩
    · rintro ⟨z, hz, haz⟩
      rcases List.mem_cons.mp hz with hz | hz
      · exact Or.inl (hz ▸ haz)
      · exact Or.inr ⟨z, hz, haz⟩

/-! ## Claim C5 -/

/-- C5: a menu item is mostly-ordered on a day iff the sum of quantities
over that day's OrderItems for the item exceeds 10 or some single such
OrderItem has quantity over 10; a (nonnegative-quantity) day-sum of
exactly 10 does not qualify, a day-sum of 11 does, and a lone OrderItem
of quantity over 10 qualifies by itself. -/
theorem mostly_ordered_thresholds (db : DB) (itemId today : Nat) :
    (is_mostly_ordered db itemId today = true ↔
      (10 < order_quantity_today db itemId today ∨
        ∃ oi ∈ itemDayRows db itemId today, 10 < oi.quantity))
    ∧ ((∀ oi ∈ itemDayRows db itemId today, 0 ≤ oi.quantity) →
        order_quantity_today db itemId today = 10 →
        is_mostly_ordered db itemId today = false)
    ∧ (order_quantity_today db itemId today = 11 →
        is_mostly_ordered db itemId today = true)
    ∧ (∀ oi ∈ itemDayRows db itemId today, 10 < oi.quantity →
        is_mostly_ordered db itemId today = true) := by
  have hiff : is_mostly_ordered db itemId today = true ↔
      (10 < order_quantity_today db itemId today ∨
        ∃ oi ∈ itemDayRows db itemId today, 10 < oi.quantity) := by
    unfold is_mostly_ordered has_large_single_order_today
    rw [Bool.or_eq_true, decide_eq_true_iff]
    constructor
    · rintro (h | h)
      · exact Or.inl h
      · rcases (filter_head_isSome_iff _ _).mp h with ⟨oi, hmem, hq⟩
        exact Or.inr ⟨oi, hmem, by simpa using hq⟩
    · rintro (h | ⟨oi, hmem, hq⟩)
      · exact Or.inl h
      · exact Or.inr
          ((filter_head_isSome_iff _ _).mpr ⟨oi, hmem, by simpa using hq⟩)
  refine ⟨hiff, ?_, ?_, ?_⟩
  · intro hnn hsum
    rw [Bool.eq_false_iff]
    intro htrue
    rcases hiff.mp htrue with h | ⟨oi, hmem, hq⟩
    · omega
    · have hle : oi.quantity ≤ order_quantity_today db itemId today := by
        unfold order_quantity_today
        refine List.single_le_sum ?_ _ (List.mem_map_of_mem _ hmem)
        intro b hb
        rcases List.mem_map.mp hb with ⟨x, hx, rfl⟩
        exact hnn x hx
      omega
  · intro hsum
    exact hiff.mpr (Or.inl (by omega))
  · intro oi hmem hq
    exact hiff.mpr (Or.inr ⟨oi, hmem, hq⟩)

/-- Witness for C5 on `exDbPopular`: menu item 1 (lone OrderItem of
quantity 11) is mostly-ordered, menu item 2 (day-sum exactly 10) is not. -/
theorem mostly_ordered_thresholds_witness :
    is_mostly_ordered exDbPopular 1 5 = true
    ∧ is_mostly_ordered exDbPopular 2 5 = false
    ∧ order_quantity_today exDbPopular 2 5 = 10
    ∧ order_quantity_today exDbPopular 1 5 = 11 := by
  refine ⟨?_, ?_, by decide, by decide⟩
  · exact (mostly_ordered_thresholds exDbPopular 1 5).2.2.1 (by decide)
  · exact (mostly_ordered_thresholds exDbPopular 2 5).2.1 (by decide) (by decide)

/-! ## Claim C10 -/

/-- C10: the three implementations of the mostly-ordered predicate (the
`MenuItem.is_mostly_ordered` model property, the inline computation in
the customer restaurant view, and the inline computation in the public
restaurant detail view, the latter instantiated with the item's own
restaurant) return the same boolean, for well-formed timestamps and
given that every order containing the item belongs to the item's
restaurant. -/
theorem mostly_ordered_implementations_agree (db : DB)
    (itemId itemRid today : Nat)
    (hwf : ∀ o ∈ db.orders, o.created_at.tod ≤ maxTod)
    (hrest : ∀ oi ∈ db.order_items, oi.menu_item_id = itemId →
      ∀ o ∈ db.orders, o.id = oi.order_id → o.restaurant_id = itemRid) :
    view_restaurant_mostly_ordered db itemId today =
      is_mostly_ordered db itemId today
    ∧ restaurant_detail_mostly_ordered db itemId itemRid today =
      is_mostly_ordered db itemId today := by
  refine ⟨rfl, ?_⟩
  have hrows : ∀ oi ∈ db.order_items.filter (fun oi => oi.menu_item_id == itemId),
      (db.orders.any (fun o => o.id == oi.order_id &&
          o.restaurant_id == itemRid &&
          dtLe (startOfDay today) o.created_at &&
          dtLe o.created_at (endOfDay today)))
      = (db.orders.any
          (fun o => o.id == oi.order_id && dateOf o.created_at == today)) := by
    intro oi hoi
    have hmi : oi.menu_item_id = itemId := by
      have h2 := (List.mem_filter.mp hoi).2
      simpa using h2
    have hoi2 : oi ∈ db.order_items := (List.mem_filter.mp hoi).1
    rw [Bool.eq_iff_iff]
    simp only [List.any_eq_true]
    constructor
    · rintro ⟨o, ho, hp⟩
      refine ⟨o, ho, ?_⟩
      simp only [Bool.and_eq_true, beq_iff_eq, dtLe, startOfDay, endOfDay,
        Bool.or_eq_true, decide_eq_true_eq] at hp ⊢
      refine ⟨hp.1.1.1, ?_⟩
      have hb1 := hp.1.2
      have hb2 := hp.2
      simp only [dateOf]
      omega
    · rintro ⟨o, ho, hp⟩
      refine ⟨o, ho, ?_⟩
      simp only [Bool.and_eq_true, beq_iff_eq, dateOf] at hp
      have hro : o.restaurant_id = itemRid := hrest oi hoi2 hmi o ho hp.1
      have htod : o.created_at.tod ≤ maxTod := hwf o ho
      simp only [Bool.and_eq_true, beq_iff_eq, dtLe, startOfDay, endOfDay,
        Bool.or_eq_true, decide_eq_true_eq]
      refine ⟨⟨⟨hp.1, hro⟩, ?_⟩, ?_⟩ <;> omega
  have hfilter :
      ((db.order_items.filter (fun oi => oi.menu_item_id == itemId)).filter
        (fun oi => db.orders.any (fun o => o.id == oi.order_id &&
          o.restaurant_id == itemRid &&
          dtLe (startOfDay today) o.created_at &&
          dtLe o.created_at (endOfDay today))))
      = itemDayRows db itemId today := by
    unfold itemDayRows
    exact List.filter_congr hrows
  unfold restaurant_detail_mostly_ordered is_mostly_ordered
    order_quantity_today has_large_single_order_today
  rw [hfilter]
  show (decide (10 < ((itemDayRows db itemId today).map
          (fun oi => oi.quantity)).sum) ||
        decide (10 < sqlMax0 ((itemDayRows db itemId today).map
          (fun oi => oi.quantity)))) =
      (decide (10 < ((itemDayRows db itemId today).map
          (fun oi => oi.quantity)).sum) ||
        ((itemDayRows db itemId today).filter
          (fun oi => 10 < oi.quantity)).head?.isSome)
  congr 1
  rw [Bool.eq_iff_iff, decide_eq_true_iff,
    lt_sqlMax0_iff 10 (by norm_num), filter_head_isSome_iff]
  constructor
  · rintro ⟨x, hx, hlt⟩
    rcases List.mem_map.mp hx with ⟨oi, hoi, rfl⟩
    exact ⟨oi, hoi, by simpa using hlt⟩
  · rintro ⟨oi, hoi, hlt⟩
    exact ⟨oi.quantity, List.mem_map_of_mem _ hoi, by simpa using hlt⟩

/-- Witness for C10 on `exDbPopular`: the three implementations agree for
menu item 1 of restaurant 100 on day 5. -/
theorem mostly_ordered_implementations_agree_witness :
    view_restaurant_mostly_ordered exDbPopular 1 5 =
      is_mostly_ordered exDbPopular 1 5
    ∧ restaurant_detail_mostly_ordered exDbPopular 1 100 5 =
      is_mostly_ordered exDbPopular 1 5 :=
  mostly_ordered_implementations_agree exDbPopular 1 100 5
    (by decide) (by decide)

/-! ## Claim C9 -/

/-- C9: when the requester owns the order's restaurant, any status in the
fixed enumeration is accepted and stored unconditionally — whatever the
order's current status, including `delivered` and `cancelled` — and the
order's `updated_at` timestamp is set; a status outside the enumeration
is rejected with the invalid-status failure and the store is unchanged. -/
theorem update_order_status_spec (db : DB) (req oid : Nat) (s : String)
    (now : DateTime) (o : Order) (r : Restaurant)
    (ho : db.orders.find? (fun x => x.id == oid) = some o)
    (hr : db.restaurants.find? (fun x => x.id == o.restaurant_id) = some r)
    (hown : r.owner_id = req) :
    (s ∈ validStatuses →
      update_order_status db req oid s now =
        (⟨true, "Order status updated!"⟩,
          { db with orders := db.orders.map (fun o2 =>
              if o2.id == o.id then { o2 with status := s, updated_at := now }
              else o2) }))
    ∧ (s ∉ validStatuses →
      update_order_status db req oid s now = (⟨false, "Invalid status"⟩, db)) := by
  unfold update_order_status
  simp only [ho]
  simp only [hr]
  constructor
  · intro hs
    simp only [hown]
    simp [hs]
  · intro hs
    simp only [hown]
    simp [hs]

/-- Witness for C9 on `exDbDelivered`: the owner moves a `delivered`
order back to `pending` (accepted, `updated_at` set), while a bogus
status is rejected and leaves the store unchanged. -/
theorem update_order_status_spec_witness :
    update_order_status exDbDelivered 42 0 "pending" ⟨6, 0⟩ =
      (⟨true, "Order status updated!"⟩,
        { exDbDelivered with orders :=
            [⟨0, 7, 100, 30, "pending", ⟨5, 9⟩, ⟨6, 0⟩⟩] })
    ∧ update_order_status exDbDelivered 42 0 "bogus" ⟨6, 0⟩ =
      (⟨false, "Invalid status"⟩, exDbDelivered) := by
  constructor
  · have h := (update_order_status_spec exDbDelivered 42 0 "pending" ⟨6, 0⟩
      ⟨0, 7, 100, 30, "delivered", ⟨5, 9⟩, ⟨5, 9⟩⟩ ⟨100, 42⟩
      (by decide) (by decide) rfl).1 (by decide)
    rw [h]
    decide
  · exact (update_order_status_spec exDbDelivered 42 0 "bogus" ⟨6, 0⟩
      ⟨0, 7, 100, 30, "delivered", ⟨5, 9⟩, ⟨5, 9⟩⟩ ⟨100, 42⟩
      (by decide) (by decide) rfl).2 (by decide)

/-! ## Claim C7 (corrected) -/

/-- Counterexample to C7 as stated: menu item 1 of `exDbUnavailable`
exists but has `is_available = false`, yet `add_to_cart` succeeds and
creates a cart row for it — availability is never checked. -/
theorem add_to_cart_availability_counterexample :
    findMenuItem exDbUnavailable 1 = some ⟨1, 10, 100, false⟩
    ∧ (⟨1, 10, 100, false⟩ : MenuItem).is_available = false
    ∧ (add_to_cart exDbUnavailable 9 1 2).1.success = true
    ∧ (add_to_cart exDbUnavailable 9 1 2).2.cart = [⟨0, 9, 1, 2⟩] := by
  decide

/-- C7 amended: `add_to_cart` validates only existence.  A missing menu
item makes the call fail (the `NotFound` raised by `get_or_404` is caught
by the blanket handler and surfaced as the generic add-to-cart failure)
with the store untouched; an existing menu item — available or not — is
always added: the call succeeds, incrementing the caller's existing row
for that item or inserting a new one. -/
theorem add_to_cart_validation (db : DB) (u m : Nat) (q : Int) :
    (findMenuItem db m = none →
      add_to_cart db u m q = (⟨false, "Error adding item to cart"⟩, db))
    ∧ (∀ mi, findMenuItem db m = some mi →
      (add_to_cart db u m q).1.success = true
      ∧ (db.cart.find? (fun c => c.user_id == u && c.menu_item_id == m)
            = none →
          (add_to_cart db u m q).2.cart =
            db.cart ++ [⟨db.nextCartId, u, m, q⟩])
      ∧ (∀ c, db.cart.find?
            (fun c => c.user_id == u && c.menu_item_id == m) = some c →
          (add_to_cart db u m q).2.cart = db.cart.map (fun e =>
            if e.id == c.id then { e with quantity := e.quantity + q }
            else e))) := by
  constructor
  · intro h
    simp only [add_to_cart, h]
  · intro mi hmi
    refine ⟨?_, ?_, ?_⟩
    · simp only [add_to_cart, hmi]
      cases hfind : db.cart.find?
          (fun c => c.user_id == u && c.menu_item_id == m) <;> rfl
    · intro hfind
      simp only [add_to_cart, hmi, hfind]
    · intro c hfind
      simp only [add_to_cart, hmi, hfind]

/-- Witness for the amended C7: on `exDbEmptyCart` (item 1 exists) the
add succeeds and inserts the row; on the empty menu the add fails. -/
theorem add_to_cart_validation_witness :
    (add_to_cart exDbEmptyCart 7 1 2).1.success = true
    ∧ (add_to_cart exDbEmptyCart 7 1 2).2.cart = [⟨0, 7, 1, 2⟩] := by
  have h := (add_to_cart_validation exDbEmptyCart 7 1 2).2
    ⟨1, 10, 100, true⟩ (by decide)
  refine ⟨h.1, ?_⟩
  rw [h.2.1 (by decide)]
  decide

/-! ## Claim C8 (corrected) -/

/-- Counterexample to C8 as stated: `add_to_cart` performs no quantity
validation, so adding menu item 1 with quantity 0 to the empty cart
stores a `CartEntry` with quantity 0 < 1. -/
theorem cart_quantity_counterexample :
    (add_to_cart exDbEmptyCart 7 1 0).2.cart = [⟨0, 7, 1, 0⟩]
    ∧ ((add_to_cart exDbEmptyCart 7 1 0).2.cart.all
        (fun e => 1 ≤ e.quantity)) = false := by
  decide

theorem add_to_cart_preserves_quantity (db : DB) (u m : Nat) (q : Int)
    (hq : 1 ≤ q) (h0 : ∀ e ∈ db.cart, 1 ≤ e.quantity) :
    ∀ e ∈ (add_to_cart db u m q).2.cart, 1 ≤ e.quantity := by
  cases hfm : findMenuItem db m with
  | none => simpa [add_to_cart, hfm] using h0
  | some mi =>
    cases hfind : db.cart.find?
        (fun c => c.user_id == u && c.menu_item_id == m) with
    | some c0 =>
      simp only [add_to_cart, hfm, hfind]
      intro e he
      rcases List.mem_map.mp he with ⟨a, ha, rfl⟩
      by_cases hid : (a.id == c0.id) = true
      · simp only [hid, if_true]
        have := h0 a ha
        omega
      · simp only [Bool.not_eq_true] at hid
        simp only [hid, Bool.false_eq_true, if_false]
        exact h0 a ha
    | none =>
      simp only [add_to_cart, hfm, hfind]
      intro e he
      rcases List.mem_append.mp he with ha | hb
      · exact h0 e ha
      · rcases List.mem_singleton.mp hb with rfl
        simpa using hq

theorem update_cart_preserves_quantity (db : DB) (u cid : Nat) (q : Int)
    (h0 : ∀ e ∈ db.cart, 1 ≤ e.quantity) :
    ∀ e ∈ (update_cart db u cid q).2.cart, 1 ≤ e.quantity := by
  cases hfind : db.cart.find? (fun c => c.id == cid) with
  | none => simpa [update_cart, hfind] using h0
  | some c0 =>
    simp only [update_cart, hfind]
    by_cases hu : (c0.user_id != u) = true
    · simp only [hu, if_true]
      exact h0
    · simp only [Bool.not_eq_true] at hu
      simp only [hu, Bool.false_eq_true, if_false]
      by_cases hq : q ≤ 0
      · simp only [hq, if_true]
        intro e he
        exact h0 e (List.mem_of_mem_filter he)
      · simp only [hq, if_false]
        intro e he
        rcases List.mem_map.mp he with ⟨a, ha, rfl⟩
        by_cases hid : (a.id == c0.id) = true
        · simp only [hid, if_true]
          omega
        · simp only [Bool.not_eq_true] at hid
          simp only [hid, Bool.false_eq_true, if_false]
          exact h0 a ha

/-- C8 amended: `update_quantity` with quantity ≤ 0 deletes the entry
instead of storing it, and a positive update stores a quantity ≥ 1; but
`add_to_cart` itself never validates quantity, so the every-entry
quantity ≥ 1 invariant holds over operation sequences only when every
add in the sequence carries quantity ≥ 1 (as the UI does). -/
theorem cart_quantity_invariant (db : DB) (ops : List CartOp)
    (h0 : ∀ e ∈ db.cart, 1 ≤ e.quantity)
    (hops : ∀ op ∈ ops, addQuantityPositive op = true) :
    ∀ e ∈ (runCartOps db ops).cart, 1 ≤ e.quantity := by
  induction ops generalizing db with
  | nil => simpa [runCartOps] using h0
  | cons op rest ih =>
    have hstep : ∀ e ∈ (match op with
        | CartOp.add u m q => (add_to_cart db u m q).2
        | CartOp.update u c q => (update_cart db u c q).2).cart,
        1 ≤ e.quantity := by
      cases op with
      | add u m q =>
        have hq : (1 : Int) ≤ q := by
          have := hops _ (List.mem_cons_self _ _)
          simpa [addQuantityPositive] using this
        exact add_to_cart_preserves_quantity db u m q hq h0
      | update u c q =>
        exact update_cart_preserves_quantity db u c q h0
    have hrest : ∀ op2 ∈ rest, addQuantityPositive op2 = true :=
      fun op2 h2 => hops op2 (List.mem_cons_of_mem _ h2)
    simpa only [runCartOps, List.foldl_cons] using
      ih _ hstep hrest

/-- Witness for the amended C8: after two adds (quantities ≥ 1) and an
update to 4, the surviving cart row is concrete and its quantity is ≥ 1
by the invariant theorem. -/
theorem cart_quantity_invariant_witness :
    (runCartOps exDbEmptyCart [.add 7 1 2, .add 7 1 3, .update 7 0 4]).cart
      = [⟨0, 7, 1, 4⟩]
    ∧ 1 ≤ (⟨0, 7, 1, 4⟩ : CartEntry).quantity := by
  refine ⟨by decide, ?_⟩
  exact cart_quantity_invariant exDbEmptyCart
    [.add 7 1 2, .add 7 1 3, .update 7 0 4] (by decide) (by decide)
    ⟨0, 7, 1, 4⟩ (by decide)

/-! ## Claim C6 -/

theorem add_to_cart_preserves_keyUnique (db : DB) (u m : Nat) (q : Int)
    (h : CartKeyUnique db) : CartKeyUnique (add_to_cart db u m q).2 := by
  unfold CartKeyUnique at h ⊢
  cases hfm : findMenuItem db m with
  | none => simpa [add_to_cart, hfm] using h
  | some mi =>
    cases hfind : db.cart.find?
        (fun c => c.user_id == u && c.menu_item_id == m) with
    | some c0 =>
      simp only [add_to_cart, hfm, hfind]
      refine List.Pairwise.map _ ?_ h
      intro a b hab hcon
      apply hab
      by_cases ha : (a.id == c0.id) = true <;>
        by_cases hb : (b.id == c0.id) = true <;>
          simpa [ha, hb] using hcon
    | none =>
      simp only [add_to_cart, hfm, hfind]
      rw [List.pairwise_append]
      refine ⟨h, List.pairwise_singleton _ _, ?_⟩
      intro a ha b hb
      rcases List.mem_singleton.mp hb with rfl
      have hnp := List.find?_eq_none.mp hfind a ha
      simp only [Bool.and_eq_true, beq_iff_eq, not_and] at hnp
      rintro ⟨h1, h2⟩
      exact hnp h1 h2

/-- C6: adding the same (existing) menu item twice, starting from a cart
with no row for that `(user, item)` pair, leaves exactly one row for the
pair carrying quantity `q1 + q2`; and any sequence of `add_to_cart`
calls preserves the at-most-one-row-per-`(user_id, menu_item_id)`
invariant. -/
theorem add_to_cart_no_duplicates :
    (∀ (db : DB) (u m : Nat) (q1 q2 : Int) (mi : MenuItem),
      findMenuItem db m = some mi →
      db.cart.filter (fun c => c.user_id == u && c.menu_item_id == m) = [] →
      ((add_to_cart (add_to_cart db u m q1).2 u m q2).2.cart.filter
          (fun c => c.user_id == u && c.menu_item_id == m))
        = [⟨db.nextCartId, u, m, q1 + q2⟩])
    ∧ (∀ (db : DB) (ops : List (Nat × Nat × Int)),
        CartKeyUnique db → CartKeyUnique (runAdds db ops)) := by
  constructor
  · intro db u m q1 q2 mi hmi hflt
    have hfind : db.cart.find?
        (fun c => c.user_id == u && c.menu_item_id == m) = none := by
      rw [List.find?_eq_none]
      intro x hx
      have hpx := List.filter_eq_nil_iff.mp hflt x hx
      simpa using hpx
    have h1 : (add_to_cart db u m q1).2 =
        { db with
            cart := db.cart ++ [⟨db.nextCartId, u, m, q1⟩],
            nextCartId := db.nextCartId + 1 } := by
      simp only [add_to_cart, hmi, hfind]
    have hmi2 : findMenuItem (add_to_cart db u m q1).2 m = some mi := by
      rw [h1]; exact hmi
    have hfind2 : (add_to_cart db u m q1).2.cart.find?
        (fun c => c.user_id == u && c.menu_item_id == m)
          = some ⟨db.nextCartId, u, m, q1⟩ := by
      rw [h1]
      show List.find? (fun c => c.user_id == u && c.menu_item_id == m)
          (db.cart ++ [(⟨db.nextCartId, u, m, q1⟩ : CartEntry)]) = _
      rw [List.find?_append, hfind, Option.none_or]
      simp [List.find?]
    obtain ⟨db1, hdb1⟩ : ∃ d, (add_to_cart db u m q1).2 = d := ⟨_, rfl⟩
    rw [hdb1] at hmi2 hfind2
    have h1q : db1 =
        { db with
            cart := db.cart ++ [⟨db.nextCartId, u, m, q1⟩],
            nextCartId := db.nextCartId + 1 } := hdb1.symm.trans h1
    rw [hdb1]
    have h2 : (add_to_cart db1 u m q2).2.cart = db1.cart.map (fun e =>
        if e.id == db.nextCartId then
          { e with quantity := e.quantity + q2 } else e) := by
      simp only [add_to_cart, hmi2, hfind2]
    rw [h2, h1q]
    show List.filter (fun c => c.user_id == u && c.menu_item_id == m)
        ((db.cart ++ [(⟨db.nextCartId, u, m, q1⟩ : CartEntry)]).map (fun e =>
          if e.id == db.nextCartId then
            { e with quantity := e.quantity + q2 } else e))
        = [⟨db.nextCartId, u, m, q1 + q2⟩]
    rw [List.filter_map]
    have hpf : ∀ x ∈ db.cart ++ [(⟨db.nextCartId, u, m, q1⟩ : CartEntry)],
        ((fun c => c.user_id == u && c.menu_item_id == m) ∘ (fun e =>
          if e.id == db.nextCartId then
            { e with quantity := e.quantity + q2 } else e)) x
        = (fun c => c.user_id == u && c.menu_item_id == m) x := by
      intro x _
      by_cases hx : x.id = db.nextCartId <;> simp [hx]
    rw [List.filter_congr hpf, List.filter_append, hflt]
    simp
  · intro db ops h
    induction ops generalizing db with
    | nil => simpa [runAdds] using h
    | cons op rest ih =>
      simpa only [runAdds, List.foldl_cons] using
        ih _ (add_to_cart_preserves_keyUnique db op.1 op.2.1 op.2.2 h)

/-- Witness for C6: two adds of item 1 (quantities 2 and 3) to the empty
cart leave one row of quantity 5; a concrete add sequence preserves the
key-uniqueness invariant. -/
theorem add_to_cart_no_duplicates_witness :
    ((add_to_cart (add_to_cart exDbEmptyCart 7 1 2).2 7 1 3).2.cart.filter
        (fun c => c.user_id == 7 && c.menu_item_id == 1)) = [⟨0, 7, 1, 5⟩]
    ∧ CartKeyUnique (runAdds exDbEmptyCart [(7, 1, 2), (7, 1, 3), (8, 1, 1)]) := by
  constructor
  · exact add_to_cart_no_duplicates.1 exDbEmptyCart 7 1 2 3
      ⟨1, 10, 100, true⟩ (by decide) (by decide)
  · exact add_to_cart_no_duplicates.2 exDbEmptyCart
      [(7, 1, 2), (7, 1, 3), (8, 1, 1)] List.Pairwise.nil

/-! ## Fault-free placement path: closed forms -/

theorem stOp_noFaults_some (s : PlaceState) (ch : Change) :
    stOp noFaults s (some ch) =
      some ⟨s.tick + 1, s.changes ++ [ch], s.nextOid, s.nextOiid⟩ := rfl

theorem stOp_noFaults_none (s : PlaceState) :
    stOp noFaults s none =
      some ⟨s.tick + 1, s.changes, s.nextOid, s.nextOiid⟩ := rfl

theorem foldlM_addItemStep_noFaults (oid : Nat)
    (items : List (CartEntry × MenuItem)) :
    ∀ s : PlaceState,
    items.foldlM (addItemStep noFaults oid) s =
      some ⟨s.tick + items.length,
            s.changes ++ itemChanges oid s.nextOiid items,
            s.nextOid, s.nextOiid + items.length⟩ := by
  induction items with
  | nil =>
    intro s
    cases s
    simp [itemChanges]
  | cons p rest ih =>
    intro s
    rw [List.foldlM_cons]
    have hstep : addItemStep noFaults oid s p =
        some ⟨s.tick + 1,
              s.changes ++ [Change.addOrderItem
                ⟨s.nextOiid, oid, p.1.menu_item_id, p.1.quantity, p.2.price⟩],
              s.nextOid, s.nextOiid + 1⟩ := rfl
    rw [hstep]
    show rest.foldlM (addItemStep noFaults oid) _ = _
    rw [ih]
    congr 1
    rw [PlaceState.mk.injEq]
    refine ⟨?_, ?_, rfl, ?_⟩
    · simp only [List.length_cons]
      omega
    · simp only [itemChanges]
      simp [List.append_assoc]
    · simp only [List.length_cons]
      omega

theorem placePartition_noFaults (u : Nat) (now : DateTime) (s : PlaceState)
    (rid : Nat) (items : List (CartEntry × MenuItem)) :
    placePartition noFaults u now s rid items =
      some ⟨s.tick + (2 + items.length),
            s.changes ++ (Change.addOrder (orderOfGroup u now s.nextOid rid items) ::
              itemChanges s.nextOid s.nextOiid items),
            s.nextOid + 1, s.nextOiid + items.length⟩ := by
  show (stOp noFaults s
      (some (Change.addOrder (orderOfGroup u now s.nextOid rid items))) >>=
    fun s1 => stOp noFaults { s1 with nextOid := s1.nextOid + 1 } none >>=
      fun s2 => items.foldlM (addItemStep noFaults s.nextOid) s2) = _
  rw [stOp_noFaults_some]
  show (stOp noFaults _ none >>= fun s2 =>
    items.foldlM (addItemStep noFaults s.nextOid) s2) = _
  rw [stOp_noFaults_none]
  show items.foldlM (addItemStep noFaults s.nextOid)
    ⟨s.tick + 1 + 1,
     s.changes ++ [Change.addOrder (orderOfGroup u now s.nextOid rid items)],
     s.nextOid + 1, s.nextOiid⟩ = _
  rw [foldlM_addItemStep_noFaults]
  congr 1
  rw [PlaceState.mk.injEq]
  refine ⟨?_, ?_, rfl, rfl⟩
  · show s.tick + 1 + 1 + items.length = s.tick + (2 + items.length)
    omega
  · show (s.changes ++ [Change.addOrder (orderOfGroup u now s.nextOid rid items)])
        ++ itemChanges s.nextOid s.nextOiid items = _
    simp [List.append_assoc]

theorem foldlM_placePartition_noFaults (u : Nat) (now : DateTime)
    (groups : List (Nat × List (CartEntry × MenuItem))) :
    ∀ s : PlaceState,
    groups.foldlM (fun s g => placePartition noFaults u now s g.1 g.2) s =
      some ⟨s.tick + groupTicks groups,
            s.changes ++ groupChanges u now s.nextOid s.nextOiid groups,
            s.nextOid + groups.length,
            s.nextOiid + groupItemCount groups⟩ := by
  induction groups with
  | nil =>
    intro s
    cases s
    simp [groupTicks, groupItemCount, groupChanges]
  | cons g rest ih =>
    intro s
    rw [List.foldlM_cons, placePartition_noFaults]
    show rest.foldlM (fun s g => placePartition noFaults u now s g.1 g.2) _ = _
    rw [ih]
    congr 1
    rw [PlaceState.mk.injEq]
    refine ⟨?_, ?_, ?_, ?_⟩
    · show s.tick + (2 + g.2.length) + groupTicks rest
        = s.tick + groupTicks (g :: rest)
      simp only [groupTicks, List.map_cons, List.sum_cons]
      omega
    · show (s.changes ++ (Change.addOrder (orderOfGroup u now s.nextOid g.1 g.2) ::
          itemChanges s.nextOid s.nextOiid g.2))
          ++ groupChanges u now (s.nextOid + 1) (s.nextOiid + g.2.length) rest
        = s.changes ++ groupChanges u now s.nextOid s.nextOiid (g :: rest)
      simp only [groupChanges]
      simp [List.append_assoc]
    · show s.nextOid + 1 + rest.length = s.nextOid + (g :: rest).length
      simp only [List.length_cons]
      omega
    · show s.nextOiid + g.2.length + groupItemCount rest
        = s.nextOiid + groupItemCount (g :: rest)
      simp only [groupItemCount, List.map_cons, List.sum_cons]
      omega

/-! Commit-time effect of a change list on the committed store. -/

theorem foldl_applyChange_orders (l : List Change) : ∀ db : DB,
    (l.foldl applyChange db).orders = db.orders ++ changeOrders l := by
  induction l with
  | nil => intro db; simp [changeOrders]
  | cons c rest ih =>
    intro db
    rw [List.foldl_cons, ih]
    cases c <;> simp [applyChange, changeOrders, List.filterMap_cons]

theorem foldl_applyChange_order_items (l : List Change) : ∀ db : DB,
    (l.foldl applyChange db).order_items = db.order_items ++ changeOrderItems l := by
  induction l with
  | nil => intro db; simp [changeOrderItems]
  | cons c rest ih =>
    intro db
    rw [List.foldl_cons, ih]
    cases c <;> simp [applyChange, changeOrderItems, List.filterMap_cons]

theorem foldl_applyChange_menu_items (l : List Change) : ∀ db : DB,
    (l.foldl applyChange db).menu_items = db.menu_items := by
  induction l with
  | nil => intro db; rfl
  | cons c rest ih =>
    intro db
    rw [List.foldl_cons, ih]
    cases c <;> rfl

theorem foldl_applyChange_cart_noclear (l : List Change)
    (h : ∀ u : Nat, Change.clearCart u ∉ l) : ∀ db : DB,
    (l.foldl applyChange db).cart = db.cart := by
  induction l with
  | nil => intro db; rfl
  | cons c rest ih =>
    intro db
    rw [List.foldl_cons]
    have hrest : ∀ u : Nat, Change.clearCart u ∉ rest := by
      intro u hu
      exact h u (List.mem_cons_of_mem _ hu)
    rw [ih hrest]
    cases c with
    | addOrder o => rfl
    | addOrderItem oi => rfl
    | clearCart u => exact absurd (List.mem_cons_self _ _) (h u).elim

theorem changeOrders_append (l1 l2 : List Change) :
    changeOrders (l1 ++ l2) = changeOrders l1 ++ changeOrders l2 := by
  simp [changeOrders, List.filterMap_append]

theorem changeOrderItems_append (l1 l2 : List Change) :
    changeOrderItems (l1 ++ l2) = changeOrderItems l1 ++ changeOrderItems l2 := by
  simp [changeOrderItems, List.filterMap_append]

theorem changeOrders_itemChanges (oid : Nat)
    (items : List (CartEntry × MenuItem)) : ∀ oiid : Nat,
    changeOrders (itemChanges oid oiid items) = [] := by
  induction items with
  | nil => intro oiid; rfl
  | cons p rest ih =>
    intro oiid
    simp only [itemChanges, changeOrders, List.filterMap_cons]
    exact ih (oiid + 1)

theorem changeOrderItems_itemChanges (oid : Nat)
    (items : List (CartEntry × MenuItem)) : ∀ oiid : Nat,
    changeOrderItems (itemChanges oid oiid items) = itemRecords oid oiid items := by
  induction items with
  | nil => intro oiid; rfl
  | cons p rest ih =>
    intro oiid
    simp only [itemChanges, itemRecords, changeOrderItems, List.filterMap_cons]
    rw [← ih (oiid + 1)]
    rfl

theorem changeOrders_groupChanges (u : Nat) (now : DateTime)
    (groups : List (Nat × List (CartEntry × MenuItem))) : ∀ oid oiid : Nat,
    changeOrders (groupChanges u now oid oiid groups)
      = ordersList u now oid groups := by
  induction groups with
  | nil => intro oid oiid; rfl
  | cons g rest ih =>
    intro oid oiid
    simp only [groupChanges, ordersList, changeOrders, List.filterMap_cons]
    show orderOfGroup u now oid g.1 g.2 ::
      changeOrders (itemChanges oid oiid g.2 ++
        groupChanges u now (oid + 1) (oiid + g.2.length) rest) = _
    rw [changeOrders_append, changeOrders_itemChanges, ih]
    rfl

theorem changeOrderItems_groupChanges_cons (u : Nat) (now : DateTime)
    (g : Nat × List (CartEntry × MenuItem))
    (rest : List (Nat × List (CartEntry × MenuItem))) (oid oiid : Nat) :
    changeOrderItems (groupChanges u now oid oiid (g :: rest))
      = itemRecords oid oiid g.2 ++
        changeOrderItems (groupChanges u now (oid + 1)
          (oiid + g.2.length) rest) := by
  simp only [groupChanges, changeOrderItems, List.filterMap_cons]
  show changeOrderItems (itemChanges oid oiid g.2 ++
    groupChanges u now (oid + 1) (oiid + g.2.length) rest) = _
  rw [changeOrderItems_append, changeOrderItems_itemChanges]
  rfl

theorem groupChanges_no_clearCart (u : Nat) (now : DateTime)
    (groups : List (Nat × List (CartEntry × MenuItem))) : ∀ oid oiid uu : Nat,
    Change.clearCart uu ∉ groupChanges u now oid oiid groups := by
  have hitems : ∀ (items : List (CartEntry × MenuItem)) (oid oiid uu : Nat),
      Change.clearCart uu ∉ itemChanges oid oiid items := by
    intro items
    induction items with
    | nil => intro oid oiid uu h; simp [itemChanges] at h
    | cons p rest ih =>
      intro oid oiid uu h
      simp only [itemChanges, List.mem_cons] at h
      rcases h with h | h
      · exact Change.noConfusion h
      · exact ih oid (oiid + 1) uu h
  induction groups with
  | nil => intro oid oiid uu h; simp [groupChanges] at h
  | cons g rest ih =>
    intro oid oiid uu h
    simp only [groupChanges, List.mem_cons, List.mem_append] at h
    rcases h with h | h | h
    · exact Change.noConfusion h
    · exact hitems g.2 oid oiid uu h
    · exact ih (oid + 1) (oiid + g.2.length) uu h

theorem foldl_applyChange_restaurants (l : List Change) : ∀ db : DB,
    (l.foldl applyChange db).restaurants = db.restaurants := by
  induction l with
  | nil => intro db; rfl
  | cons c rest ih =>
    intro db
    rw [List.foldl_cons, ih]
    cases c <;> rfl

theorem foldl_applyChange_nextCartId (l : List Change) : ∀ db : DB,
    (l.foldl applyChange db).nextCartId = db.nextCartId := by
  induction l with
  | nil => intro db; rfl
  | cons c rest ih =>
    intro db
    rw [List.foldl_cons, ih]
    cases c <;> rfl

/-- The fault-free `place_order` in closed form: on a non-empty,
fully-resolvable cart it answers success and commits, in one step, the
partition orders, their order items, and the clearing of the caller's
cart rows. -/
theorem place_order_noFaults_spec (db : DB) (u : Nat) (now : DateTime)
    (pairs : List (CartEntry × MenuItem))
    (hne : db.cart.filter (fun c => c.user_id == u) ≠ [])
    (hres : resolveCart db (db.cart.filter (fun c => c.user_id == u))
      = some pairs) :
    place_order noFaults db u now =
      (⟨true, "Order placed successfully!"⟩,
        { db with
            orders := db.orders ++
              ordersList u now db.nextOrderId (groupByRestaurant pairs),
            order_items := db.order_items ++
              changeOrderItems (groupChanges u now db.nextOrderId
                db.nextOrderItemId (groupByRestaurant pairs)),
            cart := db.cart.filter (fun c => !(c.user_id == u)),
            nextOrderId := db.nextOrderId + (groupByRestaurant pairs).length,
            nextOrderItemId := db.nextOrderItemId +
              groupItemCount (groupByRestaurant pairs) }) := by
  have hielem : (db.cart.filter (fun c => c.user_id == u)).isEmpty = false := by
    cases hc : db.cart.filter (fun c => c.user_id == u) with
    | nil => exact absurd hc hne
    | cons a l => rfl
  have hA : place_order noFaults db u now =
      (⟨true, "Order placed successfully!"⟩,
        { ((([] ++ groupChanges u now db.nextOrderId db.nextOrderItemId
              (groupByRestaurant pairs)) ++ [Change.clearCart u]).foldl
                applyChange db) with
            nextOrderId := db.nextOrderId + (groupByRestaurant pairs).length,
            nextOrderItemId := db.nextOrderItemId +
              groupItemCount (groupByRestaurant pairs) }) := by
    unfold place_order
    simp only [hres, hielem, Bool.false_eq_true, if_false]
    rw [foldlM_placePartition_noFaults]
    rfl
  rw [hA]
  have hnc : ∀ uu : Nat, Change.clearCart uu ∉
      ([] ++ groupChanges u now db.nextOrderId db.nextOrderItemId
        (groupByRestaurant pairs)) := by
    intro uu h
    rw [List.nil_append] at h
    exact groupChanges_no_clearCart u now (groupByRestaurant pairs)
      db.nextOrderId db.nextOrderItemId uu h
  rw [Prod.mk.injEq]
  refine ⟨rfl, ?_⟩
  rw [List.foldl_append]
  rw [DB.mk.injEq]
  refine ⟨?_, ?_, ?_, ?_, ?_, ?_, rfl, rfl⟩
  · show (applyChange (List.foldl applyChange db
        ([] ++ groupChanges u now db.nextOrderId db.nextOrderItemId
          (groupByRestaurant pairs))) (Change.clearCart u)).menu_items
      = db.menu_items
    show (List.foldl applyChange db
        ([] ++ groupChanges u now db.nextOrderId db.nextOrderItemId
          (groupByRestaurant pairs))).menu_items = db.menu_items
    rw [foldl_applyChange_menu_items]
  · show (List.foldl applyChange db
        ([] ++ groupChanges u now db.nextOrderId db.nextOrderItemId
          (groupByRestaurant pairs))).cart.filter (fun c => !(c.user_id == u))
      = db.cart.filter (fun c => !(c.user_id == u))
    rw [foldl_applyChange_cart_noclear _ hnc]
  · show (List.foldl applyChange db
        ([] ++ groupChanges u now db.nextOrderId db.nextOrderItemId
          (groupByRestaurant pairs))).orders
      = db.orders ++ ordersList u now db.nextOrderId (groupByRestaurant pairs)
    rw [foldl_applyChange_orders, List.nil_append,
      changeOrders_groupChanges]
  · show (List.foldl applyChange db
        ([] ++ groupChanges u now db.nextOrderId db.nextOrderItemId
          (groupByRestaurant pairs))).order_items
      = db.order_items ++ changeOrderItems (groupChanges u now db.nextOrderId
          db.nextOrderItemId (groupByRestaurant pairs))
    rw [foldl_applyChange_order_items, List.nil_append]
  · show (List.foldl applyChange db
        ([] ++ groupChanges u now db.nextOrderId db.nextOrderItemId
          (groupByRestaurant pairs))).restaurants = db.restaurants
    rw [foldl_applyChange_restaurants]
  · show (List.foldl applyChange db
        ([] ++ groupChanges u now db.nextOrderId db.nextOrderItemId
          (groupByRestaurant pairs))).nextCartId = db.nextCartId
    rw [foldl_applyChange_nextCartId]

/-! ## Claim C1 -/

/-- C1: one `place_order` invocation is atomic.  Under any fault oracle,
if the call fails — a fault at any staged step (order creation,
order-item creation, cart clearing, commit) or an unresolvable cart row —
the committed store is exactly as before the call: no order, no order
item, and the caller's cart rows untouched.  On success the new orders
are appended and the caller's cart rows disappear in the same commit. -/
theorem place_order_atomic (faults : Nat → Bool) (db : DB) (u : Nat)
    (now : DateTime) :
    ((place_order faults db u now).1.success = false →
      (place_order faults db u now).2 = db)
    ∧ ((place_order faults db u now).1.success = true →
      (place_order faults db u now).2.cart.filter (fun c => c.user_id == u) = []
      ∧ (∃ newOrders, (place_order faults db u now).2.orders
          = db.orders ++ newOrders)
      ∧ (∃ newItems, (place_order faults db u now).2.order_items
          = db.order_items ++ newItems)) := by
  simp only [place_order]
  split
  · exact ⟨fun _ => rfl, fun h => by simp at h⟩
  · split
    · exact ⟨fun _ => rfl, fun h => by simp at h⟩
    · rename_i pairs hres
      split
      · exact ⟨fun _ => rfl, fun h => by simp at h⟩
      · rename_i s hrun
        refine ⟨fun h => by simp at h, fun _ => ?_⟩
        rcases Option.bind_eq_some.mp hrun with ⟨s1, h1, h2⟩
        rcases Option.bind_eq_some.mp h2 with ⟨s2, h3, h4⟩
        have hs2 : s2.changes = s1.changes ++ [Change.clearCart u] := by
          unfold stOp at h3
          by_cases hf : faults s1.tick = true
          · simp [hf] at h3
          · simp only [Bool.not_eq_true] at hf
            simp only [hf, Bool.false_eq_true, if_false,
              Option.some.injEq] at h3
            rw [← h3]
        have hs : s.changes = s2.changes := by
          unfold stOp at h4
          by_cases hf : faults s2.tick = true
          · simp [hf] at h4
          · simp only [Bool.not_eq_true] at hf
            simp only [hf, Bool.false_eq_true, if_false,
              Option.some.injEq] at h4
            rw [← h4]
        refine ⟨?_, ?_, ?_⟩
        · show ((s.changes.foldl applyChange db)).cart.filter
            (fun c => c.user_id == u) = []
          rw [hs, hs2, List.foldl_append]
          show (((s1.changes.foldl applyChange db)).cart.filter
            (fun c => !(c.user_id == u))).filter (fun c => c.user_id == u) = []
          rw [List.filter_filter]
          apply List.filter_eq_nil_iff.mpr
          intro a _
          simp
        · exact ⟨changeOrders s.changes, by
            show (s.changes.foldl applyChange db).orders = _
            rw [foldl_applyChange_orders]⟩
        · exact ⟨changeOrderItems s.changes, by
            show (s.changes.foldl applyChange db).order_items = _
            rw [foldl_applyChange_order_items]⟩

/-- Witness for C1: with a fault injected at the very first staged step
(`faults ≡ true`), placing user 7's two-restaurant cart fails and leaves
the store — cart included — exactly as it was; and the fault-free run
succeeds with the cart rows gone and the orders appended. -/
theorem place_order_atomic_witness :
    (place_order (fun _ => true) exDbTwoRest 7 ⟨5, 3⟩).2 = exDbTwoRest
    ∧ (place_order noFaults exDbTwoRest 7 ⟨5, 3⟩).2.cart.filter
        (fun c => c.user_id == 7) = [] := by
  constructor
  · exact (place_order_atomic (fun _ => true) exDbTwoRest 7 ⟨5, 3⟩).1 (by decide)
  · exact ((place_order_atomic noFaults exDbTwoRest 7 ⟨5, 3⟩).2 (by decide)).1

/-! ## Claim C4 (corrected) -/

/-- Counterexample to C4 as stated: two successful placements that
create different orders (id 0 at restaurant 100 vs id 5 at restaurant
200) return byte-identical responses, so the response — a fixed
`success, message` pair — cannot carry the list of created order
identifiers. -/
theorem place_order_returns_no_ids_counterexample :
    (place_order noFaults exDbOneRest 7 ⟨0, 0⟩).1
      = (place_order noFaults exDbOneRestShifted 7 ⟨0, 0⟩).1
    ∧ (place_order noFaults exDbOneRest 7 ⟨0, 0⟩).1.success = true
    ∧ (place_order noFaults exDbOneRestShifted 7 ⟨0, 0⟩).1.success = true
    ∧ (place_order noFaults exDbOneRest 7 ⟨0, 0⟩).2.orders.map
        (fun o => o.id) = [0]
    ∧ (place_order noFaults exDbOneRestShifted 7 ⟨0, 0⟩).2.orders.map
        (fun o => o.id) = [5] := by
  decide

/-- C4 amended: `place_order` on an empty cart answers the empty-cart
failure (`Your cart is empty.`) and leaves the store untouched — no
Order is created; a successful placement answers the fixed generic
success message (no order identifiers are returned). -/
theorem place_order_contract (faults : Nat → Bool) (db : DB) (u : Nat)
    (now : DateTime) :
    (db.cart.filter (fun c => c.user_id == u) = [] →
      place_order faults db u now = (⟨false, "Your cart is empty."⟩, db))
    ∧ ((place_order faults db u now).1.success = true →
      (place_order faults db u now).1
        = ⟨true, "Order placed successfully!"⟩) := by
  constructor
  · intro h
    have hie : (db.cart.filter (fun c => c.user_id == u)).isEmpty = true := by
      rw [h]
      rfl
    simp only [place_order, hie, if_true]
  · simp only [place_order]
    split
    · intro h
      simp at h
    · split
      · intro h
        simp at h
      · split
        · intro h
          simp at h
        · intro _
          rfl

/-- Witness for the amended C4: the empty cart is refused without any
store change, and the §8 two-restaurant cart placement answers the fixed
success message. -/
theorem place_order_contract_witness :
    place_order noFaults exDbEmptyCart 7 ⟨0, 0⟩
      = (⟨false, "Your cart is empty."⟩, exDbEmptyCart)
    ∧ (place_order noFaults exDbTwoRest 7 ⟨5, 3⟩).1
      = ⟨true, "Order placed successfully!"⟩ := by
  constructor
  · exact (place_order_contract noFaults exDbEmptyCart 7 ⟨0, 0⟩).1 (by decide)
  · exact (place_order_contract noFaults exDbTwoRest 7 ⟨5, 3⟩).2 (by decide)

/-! ## Grouping invariants -/

theorem groupByRestaurant_eq_foldl (pairs : List (CartEntry × MenuItem)) :
    groupByRestaurant pairs = pairs.foldl gbStep [] := rfl

theorem resolveCart_mem (db : DB) :
    ∀ (items : List CartEntry) (pairs : List (CartEntry × MenuItem)),
    resolveCart db items = some pairs →
    ∀ p ∈ pairs, findMenuItem db p.1.menu_item_id = some p.2 := by
  intro items
  induction items with
  | nil =>
    intro pairs h p hp
    have h0 : resolveCart db ([] : List CartEntry) = some [] := rfl
    rw [h0] at h
    rcases Option.some.inj h with rfl
    simp at hp
  | cons c rest ih =>
    intro pairs h p hp
    unfold resolveCart at h
    rw [List.mapM_cons] at h
    rcases Option.bind_eq_some.mp h with ⟨b, hb, h2⟩
    rcases Option.bind_eq_some.mp h2 with ⟨bs, hbs, h3⟩
    have hpairs : b :: bs = pairs := Option.some.inj h3
    rcases Option.map_eq_some'.mp hb with ⟨m, hm, hbm⟩
    rw [← hpairs] at hp
    rcases List.mem_cons.mp hp with rfl | hp2
    · rw [← hbm]
      exact hm
    · exact ih bs hbs p hp2

theorem groupBy_fold_facts (P : CartEntry × MenuItem → Prop) :
    ∀ (pairs : List (CartEntry × MenuItem))
      (acc : List (Nat × List (CartEntry × MenuItem))),
    (∀ g ∈ acc, ∀ p ∈ g.2, P p ∧ p.2.restaurant_id = g.1) →
    ((acc.map (fun g => g.1)).Nodup) →
    (∀ p ∈ pairs, P p) →
    (∀ g ∈ pairs.foldl gbStep acc, ∀ p ∈ g.2, P p ∧ p.2.restaurant_id = g.1)
    ∧ ((pairs.foldl gbStep acc).map (fun g => g.1)).Nodup
    ∧ (∀ r : Nat, r ∈ (pairs.foldl gbStep acc).map (fun g => g.1) ↔
        r ∈ acc.map (fun g => g.1) ∨
          r ∈ pairs.map (fun p => p.2.restaurant_id)) := by
  intro pairs
  induction pairs with
  | nil =>
    intro acc hacc hnd _
    refine ⟨hacc, hnd, fun r => ?_⟩
    simp
  | cons p rest ih =>
    intro acc hacc hnd hP
    rw [List.foldl_cons]
    by_cases hmem : acc.any (fun g => g.1 == p.2.restaurant_id) = true
    · have hstep : gbStep acc p = acc.map (fun g =>
          if g.1 == p.2.restaurant_id then (g.1, g.2 ++ [p]) else g) := by
        simp [gbStep, hmem]
      rw [hstep]
      have hacc2 : ∀ g ∈ acc.map (fun g =>
          if g.1 == p.2.restaurant_id then (g.1, g.2 ++ [p]) else g),
          ∀ q ∈ g.2, P q ∧ q.2.restaurant_id = g.1 := by
        intro g hg q hq
        rcases List.mem_map.mp hg with ⟨g0, hg0, rfl⟩
        by_cases hkey : (g0.1 == p.2.restaurant_id) = true
        · simp only [hkey, if_true] at hq ⊢
          rcases List.mem_append.mp hq with hq | hq
          · have h2 := hacc g0 hg0 q hq
            exact ⟨h2.1, h2.2⟩
          · rcases List.mem_singleton.mp hq with rfl
            refine ⟨hP q (List.mem_cons_self _ _), ?_⟩
            exact (beq_iff_eq.mp hkey).symm
        · simp only [Bool.not_eq_true] at hkey
          simp only [hkey, Bool.false_eq_true, if_false] at hq ⊢
          exact hacc g0 hg0 q hq
      have hkeys : (acc.map (fun g =>
          if g.1 == p.2.restaurant_id then (g.1, g.2 ++ [p]) else g)).map
            (fun g => g.1) = acc.map (fun g => g.1) := by
        rw [List.map_map]
        apply List.map_congr_left
        intro g _
        show (if (g.1 == p.2.restaurant_id) = true
          then (g.1, g.2 ++ [p]) else g).1 = g.1
        split <;> rfl
      have hnd2 : ((acc.map (fun g =>
          if g.1 == p.2.restaurant_id then (g.1, g.2 ++ [p]) else g)).map
            (fun g => g.1)).Nodup := by
        rw [hkeys]; exact hnd
      have hmain := ih _ hacc2 hnd2 (fun q hq => hP q (List.mem_cons_of_mem _ hq))
      refine ⟨hmain.1, hmain.2.1, fun r => ?_⟩
      rw [hmain.2.2 r, hkeys]
      have hrid : p.2.restaurant_id ∈ acc.map (fun g => g.1) := by
        rcases List.any_eq_true.mp hmem with ⟨g, hg, hb⟩
        exact List.mem_map.mpr ⟨g, hg, beq_iff_eq.mp hb⟩
      simp only [List.map_cons, List.mem_cons]
      constructor
      · rintro (h | h)
        · exact Or.inl h
        · exact Or.inr (Or.inr h)
      · rintro (h | h | h)
        · exact Or.inl h
        · exact Or.inl (h ▸ hrid)
        · exact Or.inr h
    · rw [Bool.not_eq_true] at hmem
      have hstep : gbStep acc p = acc ++ [(p.2.restaurant_id, [p])] := by
        simp [gbStep, hmem]
      rw [hstep]
      have hacc2 : ∀ g ∈ acc ++ [(p.2.restaurant_id, [p])],
          ∀ q ∈ g.2, P q ∧ q.2.restaurant_id = g.1 := by
        intro g hg q hq
        rcases List.mem_append.mp hg with hg | hg
        · exact hacc g hg q hq
        · rcases List.mem_singleton.mp hg with rfl
          rcases List.mem_singleton.mp hq with rfl
          exact ⟨hP q (List.mem_cons_self _ _), rfl⟩
      have hnd2 : ((acc ++ [(p.2.restaurant_id, [p])]).map
          (fun g => g.1)).Nodup := by
        rw [List.map_append]
        refine List.Nodup.append hnd (List.nodup_singleton _) ?_
        intro a ha hb
        rcases List.mem_singleton.mp (by simpa using hb) with rfl
        rcases List.mem_map.mp ha with ⟨g, hg, hkey⟩
        have hfalse := List.any_eq_false.mp hmem g hg
        rw [hkey] at hfalse
        simp at hfalse
      have hmain := ih _ hacc2 hnd2 (fun q hq => hP q (List.mem_cons_of_mem _ hq))
      refine ⟨hmain.1, hmain.2.1, fun r => ?_⟩
      rw [hmain.2.2 r, List.map_append]
      simp only [List.mem_append, List.map_cons, List.mem_cons,
        List.map_nil, List.mem_singleton, List.not_mem_nil, or_false]
      tauto

theorem groupByRestaurant_facts (P : CartEntry × MenuItem → Prop)
    (pairs : List (CartEntry × MenuItem)) (hP : ∀ p ∈ pairs, P p) :
    (∀ g ∈ groupByRestaurant pairs, ∀ p ∈ g.2, P p ∧ p.2.restaurant_id = g.1)
    ∧ ((groupByRestaurant pairs).map (fun g => g.1)).Nodup
    ∧ (∀ r : Nat, r ∈ (groupByRestaurant pairs).map (fun g => g.1) ↔
        r ∈ pairs.map (fun p => p.2.restaurant_id)) := by
  have h := groupBy_fold_facts P pairs [] (by simp) (by simp) hP
  rw [groupByRestaurant_eq_foldl]
  refine ⟨h.1, h.2.1, fun r => ?_⟩
  rw [h.2.2 r]
  simp

theorem ordersList_length (u : Nat) (now : DateTime)
    (groups : List (Nat × List (CartEntry × MenuItem))) : ∀ oid : Nat,
    (ordersList u now oid groups).length = groups.length := by
  induction groups with
  | nil => intro oid; rfl
  | cons g rest ih =>
    intro oid
    simp only [ordersList, List.length_cons, ih]

theorem ordersList_map_restaurant (u : Nat) (now : DateTime)
    (groups : List (Nat × List (CartEntry × MenuItem))) : ∀ oid : Nat,
    (ordersList u now oid groups).map (fun o => o.restaurant_id)
      = groups.map (fun g => g.1) := by
  induction groups with
  | nil => intro oid; rfl
  | cons g rest ih =>
    intro oid
    simp only [ordersList, List.map_cons, ih]
    rfl

theorem ordersList_mem (u : Nat) (now : DateTime)
    (groups : List (Nat × List (CartEntry × MenuItem))) : ∀ oid : Nat,
    ∀ o ∈ ordersList u now oid groups, oid ≤ o.id ∧ o.customer_id = u := by
  induction groups with
  | nil => intro oid o ho; simp [ordersList] at ho
  | cons g rest ih =>
    intro oid o ho
    rcases List.mem_cons.mp ho with rfl | ho2
    · exact ⟨Nat.le_refl _, rfl⟩
    · have h2 := ih (oid + 1) o ho2
      exact ⟨Nat.le_of_succ_le h2.1, h2.2⟩

theorem itemRecords_order_id (oid : Nat)
    (items : List (CartEntry × MenuItem)) : ∀ oiid : Nat,
    ∀ oi ∈ itemRecords oid oiid items, oi.order_id = oid := by
  induction items with
  | nil => intro oiid oi h; simp [itemRecords] at h
  | cons p rest ih =>
    intro oiid oi h
    rcases List.mem_cons.mp h with rfl | h2
    · rfl
    · exact ih (oiid + 1) oi h2

theorem itemRecords_total (oid : Nat)
    (items : List (CartEntry × MenuItem)) : ∀ oiid : Nat,
    ((itemRecords oid oiid items).map
      (fun oi => oi.price * oi.quantity)).sum = partitionTotal items := by
  induction items with
  | nil => intro oiid; rfl
  | cons p rest ih =>
    intro oiid
    simp only [itemRecords, List.map_cons, List.sum_cons, ih,
      partitionTotal, List.map_cons, List.sum_cons]

theorem itemRecords_src (oid : Nat)
    (items : List (CartEntry × MenuItem)) : ∀ oiid : Nat,
    ∀ oi ∈ itemRecords oid oiid items, ∃ p ∈ items,
      oi.menu_item_id = p.1.menu_item_id ∧ oi.price = p.2.price
        ∧ oi.quantity = p.1.quantity := by
  induction items with
  | nil => intro oiid oi h; simp [itemRecords] at h
  | cons p rest ih =>
    intro oiid oi h
    rcases List.mem_cons.mp h with rfl | h2
    · exact ⟨p, List.mem_cons_self _ _, rfl, rfl, rfl⟩
    · rcases ih (oiid + 1) oi h2 with ⟨q, hq, hprops⟩
      exact ⟨q, List.mem_cons_of_mem _ hq, hprops⟩

theorem gc_items_order_id_ge (u : Nat) (now : DateTime)
    (groups : List (Nat × List (CartEntry × MenuItem))) : ∀ oid oiid : Nat,
    ∀ oi ∈ changeOrderItems (groupChanges u now oid oiid groups),
      oid ≤ oi.order_id := by
  induction groups with
  | nil => intro oid oiid oi h; simp [groupChanges, changeOrderItems] at h
  | cons g rest ih =>
    intro oid oiid oi h
    rw [changeOrderItems_groupChanges_cons] at h
    rcases List.mem_append.mp h with h | h
    · rw [itemRecords_order_id oid g.2 oiid oi h]
    · exact Nat.le_of_succ_le (ih (oid + 1) (oiid + g.2.length) oi h)

theorem gc_totals (u : Nat) (now : DateTime)
    (groups : List (Nat × List (CartEntry × MenuItem))) : ∀ oid oiid : Nat,
    ∀ o ∈ ordersList u now oid groups,
      o.total_amount =
        (((changeOrderItems (groupChanges u now oid oiid groups)).filter
          (fun oi => oi.order_id == o.id)).map
            (fun oi => oi.price * oi.quantity)).sum := by
  induction groups with
  | nil => intro oid oiid o ho; simp [ordersList] at ho
  | cons g rest ih =>
    intro oid oiid o ho
    rw [changeOrderItems_groupChanges_cons, List.filter_append]
    rcases List.mem_cons.mp ho with rfl | ho2
    · have hall : (itemRecords oid oiid g.2).filter
          (fun oi => oi.order_id == (orderOfGroup u now oid g.1 g.2).id)
          = itemRecords oid oiid g.2 := by
        apply List.filter_eq_self.mpr
        intro oi hoi
        have hid := itemRecords_order_id oid g.2 oiid oi hoi
        simp [hid, orderOfGroup]
      have hnone : (changeOrderItems (groupChanges u now (oid + 1)
          (oiid + g.2.length) rest)).filter
          (fun oi => oi.order_id == (orderOfGroup u now oid g.1 g.2).id)
          = [] := by
        apply List.filter_eq_nil_iff.mpr
        intro oi hoi
        have hge := gc_items_order_id_ge u now rest (oid + 1)
          (oiid + g.2.length) oi hoi
        simp only [orderOfGroup, beq_iff_eq]
        omega
      rw [hall, hnone, List.append_nil, itemRecords_total]
      rfl
    · have hgt : oid + 1 ≤ o.id := (ordersList_mem u now rest (oid + 1) o ho2).1
      have hnone : (itemRecords oid oiid g.2).filter
          (fun oi => oi.order_id == o.id) = [] := by
        apply List.filter_eq_nil_iff.mpr
        intro oi hoi
        have hid := itemRecords_order_id oid g.2 oiid oi hoi
        simp only [beq_iff_eq, hid]
        omega
      rw [hnone, List.nil_append]
      exact ih (oid + 1) (oiid + g.2.length) o ho2

theorem gc_items_restaurant (db : DB) (u : Nat) (now : DateTime)
    (groups : List (Nat × List (CartEntry × MenuItem))) : ∀ oid oiid : Nat,
    (∀ g ∈ groups, ∀ p ∈ g.2,
      findMenuItem db p.1.menu_item_id = some p.2
        ∧ p.2.restaurant_id = g.1) →
    ∀ o ∈ ordersList u now oid groups,
      ∀ oi ∈ changeOrderItems (groupChanges u now oid oiid groups),
        oi.order_id = o.id →
        ∃ m, findMenuItem db oi.menu_item_id = some m
          ∧ m.restaurant_id = o.restaurant_id := by
  induction groups with
  | nil => intro oid oiid hg o ho; simp [ordersList] at ho
  | cons g rest ih =>
    intro oid oiid hg o ho oi hoi heq
    rw [changeOrderItems_groupChanges_cons] at hoi
    rcases List.mem_cons.mp ho with rfl | ho2
    · rcases List.mem_append.mp hoi with hoi | hoi
      · rcases itemRecords_src oid g.2 oiid oi hoi with ⟨p, hp, hmid, hpr, hq⟩
        have hgp := hg g (List.mem_cons_self _ _) p hp
        refine ⟨p.2, ?_, ?_⟩
        · rw [hmid]; exact hgp.1
        · rw [hgp.2]; rfl
      · have hge := gc_items_order_id_ge u now rest (oid + 1)
          (oiid + g.2.length) oi hoi
        exfalso
        have hoid : oi.order_id = oid := heq
        omega
    · rcases List.mem_append.mp hoi with hoi | hoi
      · have hid := itemRecords_order_id oid g.2 oiid oi hoi
        have hgt := (ordersList_mem u now rest (oid + 1) o ho2).1
        exfalso
        rw [hid] at heq
        omega
      · exact ih (oid + 1) (oiid + g.2.length)
          (fun g2 hg2 => hg g2 (List.mem_cons_of_mem _ hg2)) o ho2 oi hoi heq

theorem gc_items_price (db : DB) (u : Nat) (now : DateTime)
    (groups : List (Nat × List (CartEntry × MenuItem))) : ∀ oid oiid : Nat,
    (∀ g ∈ groups, ∀ p ∈ g.2, findMenuItem db p.1.menu_item_id = some p.2) →
    ∀ oi ∈ changeOrderItems (groupChanges u now oid oiid groups),
      ∃ m, findMenuItem db oi.menu_item_id = some m ∧ oi.price = m.price := by
  induction groups with
  | nil => intro oid oiid hg oi h; simp [groupChanges, changeOrderItems] at h
  | cons g rest ih =>
    intro oid oiid hg oi h
    rw [changeOrderItems_groupChanges_cons] at h
    rcases List.mem_append.mp h with h | h
    · rcases itemRecords_src oid g.2 oiid oi h with ⟨p, hp, hmid, hpr, _⟩
      exact ⟨p.2, by rw [hmid]; exact hg g (List.mem_cons_self _ _) p hp,
        by rw [hpr]⟩
    · exact ih (oid + 1) (oiid + g.2.length)
        (fun g2 hg2 => hg g2 (List.mem_cons_of_mem _ hg2)) oi h

theorem nodup_same_mem_length (l1 l2 : List Nat) (h1 : l1.Nodup)
    (h2 : l2.Nodup) (h : ∀ x, x ∈ l1 ↔ x ∈ l2) : l1.length = l2.length := by
  rw [← List.toFinset_card_of_nodup h1, ← List.toFinset_card_of_nodup h2]
  congr 1
  ext x
  simp only [List.mem_toFinset]
  exact h x

/-! ## Claim C2 -/

/-- C2: a successful fault-free `place_order` on a non-empty cart whose
rows all resolve creates exactly one Order per distinct restaurant
represented in the cart (as many orders as the deduplicated restaurant
list), with pairwise-distinct restaurants covering exactly the cart's
restaurants; every created OrderItem attached to a created Order
references a menu item of that Order's restaurant; and the user's cart
has zero entries afterwards. -/
theorem place_order_partition_per_restaurant (db : DB) (u : Nat)
    (now : DateTime) (pairs : List (CartEntry × MenuItem))
    (hne : db.cart.filter (fun c => c.user_id == u) ≠ [])
    (hres : resolveCart db (db.cart.filter (fun c => c.user_id == u))
      = some pairs) :
    (place_order noFaults db u now).1.success = true
    ∧ (place_order noFaults db u now).2.orders
        = db.orders ++ ordersList u now db.nextOrderId (groupByRestaurant pairs)
    ∧ (ordersList u now db.nextOrderId (groupByRestaurant pairs)).length
        = ((pairs.map (fun p => p.2.restaurant_id)).dedup).length
    ∧ ((ordersList u now db.nextOrderId (groupByRestaurant pairs)).map
        (fun o => o.restaurant_id)).Nodup
    ∧ (∀ r : Nat, r ∈ (ordersList u now db.nextOrderId
        (groupByRestaurant pairs)).map (fun o => o.restaurant_id)
        ↔ r ∈ pairs.map (fun p => p.2.restaurant_id))
    ∧ (∀ o ∈ ordersList u now db.nextOrderId (groupByRestaurant pairs),
        o.customer_id = u)
    ∧ (place_order noFaults db u now).2.order_items
        = db.order_items ++ changeOrderItems (groupChanges u now
            db.nextOrderId db.nextOrderItemId (groupByRestaurant pairs))
    ∧ (∀ o ∈ ordersList u now db.nextOrderId (groupByRestaurant pairs),
        ∀ oi ∈ changeOrderItems (groupChanges u now db.nextOrderId
            db.nextOrderItemId (groupByRestaurant pairs)),
          oi.order_id = o.id →
          ∃ m, findMenuItem db oi.menu_item_id = some m
            ∧ m.restaurant_id = o.restaurant_id)
    ∧ (place_order noFaults db u now).2.cart.filter
        (fun c => c.user_id == u) = [] := by
  have hspec := place_order_noFaults_spec db u now pairs hne hres
  have hmem := resolveCart_mem db _ pairs hres
  have hfacts := groupByRestaurant_facts
    (fun p => findMenuItem db p.1.menu_item_id = some p.2) pairs hmem
  refine ⟨by rw [hspec], by rw [hspec], ?_, ?_, ?_, ?_, by rw [hspec],
    ?_, ?_⟩
  · rw [ordersList_length]
    have hl : (groupByRestaurant pairs).length
        = ((groupByRestaurant pairs).map (fun g => g.1)).length :=
      (List.length_map _ _).symm
    rw [hl]
    apply nodup_same_mem_length _ _ hfacts.2.1 (List.nodup_dedup _)
    intro x
    rw [hfacts.2.2 x, List.mem_dedup]
  · rw [ordersList_map_restaurant]
    exact hfacts.2.1
  · intro r
    rw [ordersList_map_restaurant]
    exact hfacts.2.2 r
  · intro o ho
    exact (ordersList_mem u now _ db.nextOrderId o ho).2
  · intro o ho oi hoi heq
    exact gc_items_restaurant db u now (groupByRestaurant pairs)
      db.nextOrderId db.nextOrderItemId hfacts.1 o ho oi hoi heq
  · rw [hspec]
    show (db.cart.filter (fun c => !(c.user_id == u))).filter
      (fun c => c.user_id == u) = []
    rw [List.filter_filter]
    apply List.filter_eq_nil_iff.mpr
    intro a _
    simp

/-- Witness for C2 on the §8 two-restaurant cart: placement succeeds and
creates exactly 2 orders. -/
theorem place_order_partition_per_restaurant_witness :
    (place_order noFaults exDbTwoRest 7 ⟨5, 3⟩).1.success = true
    ∧ (ordersList 7 ⟨5, 3⟩ exDbTwoRest.nextOrderId
        (groupByRestaurant [(⟨0, 7, 1, 3⟩, ⟨1, 10, 100, true⟩),
          (⟨1, 7, 2, 1⟩, ⟨2, 5, 200, true⟩)])).length = 2 := by
  have h := place_order_partition_per_restaurant exDbTwoRest 7 ⟨5, 3⟩
    [(⟨0, 7, 1, 3⟩, ⟨1, 10, 100, true⟩), (⟨1, 7, 2, 1⟩, ⟨2, 5, 200, true⟩)]
    (by decide) (by decide)
  refine ⟨h.1, ?_⟩
  rw [h.2.2.1]
  decide

/-! ## Claim C3 -/

/-- C3: for every Order created by a successful fault-free `place_order`,
`total_amount` equals the sum of `price × quantity` over the OrderItems
created for it, each OrderItem's price being a frozen copy of the live
menu item's price at placement; and a later live price edit
(`edit_menu_item_price`) changes neither stored orders nor stored order
items. -/
theorem place_order_totals_frozen (db : DB) (u : Nat) (now : DateTime)
    (pairs : List (CartEntry × MenuItem))
    (hne : db.cart.filter (fun c => c.user_id == u) ≠ [])
    (hres : resolveCart db (db.cart.filter (fun c => c.user_id == u))
      = some pairs) :
    (place_order noFaults db u now).2.orders
      = db.orders ++ ordersList u now db.nextOrderId (groupByRestaurant pairs)
    ∧ (place_order noFaults db u now).2.order_items
      = db.order_items ++ changeOrderItems (groupChanges u now
          db.nextOrderId db.nextOrderItemId (groupByRestaurant pairs))
    ∧ (∀ o ∈ ordersList u now db.nextOrderId (groupByRestaurant pairs),
        o.total_amount =
          (((changeOrderItems (groupChanges u now db.nextOrderId
              db.nextOrderItemId (groupByRestaurant pairs))).filter
            (fun oi => oi.order_id == o.id)).map
              (fun oi => oi.price * oi.quantity)).sum)
    ∧ (∀ oi ∈ changeOrderItems (groupChanges u now db.nextOrderId
          db.nextOrderItemId (groupByRestaurant pairs)),
        ∃ m, findMenuItem db oi.menu_item_id = some m ∧ oi.price = m.price)
    ∧ (∀ (d : DB) (itemId : Nat) (newPrice : Int),
        (edit_menu_item_price d itemId newPrice).orders = d.orders
        ∧ (edit_menu_item_price d itemId newPrice).order_items
          = d.order_items) := by
  have hspec := place_order_noFaults_spec db u now pairs hne hres
  have hmem := resolveCart_mem db _ pairs hres
  have hfacts := groupByRestaurant_facts
    (fun p => findMenuItem db p.1.menu_item_id = some p.2) pairs hmem
  refine ⟨by rw [hspec], by rw [hspec], ?_, ?_, ?_⟩
  · intro o ho
    exact gc_totals u now (groupByRestaurant pairs)
      db.nextOrderId db.nextOrderItemId o ho
  · intro oi hoi
    exact gc_items_price db u now (groupByRestaurant pairs)
      db.nextOrderId db.nextOrderItemId
      (fun g hg p hp => (hfacts.1 g hg p hp).1) oi hoi
  · intro d itemId newPrice
    exact ⟨rfl, rfl⟩

/-- Witness for C3 on the §8 scenario: the created orders are appended
and each created order's total is the sum of its items' frozen
`price × quantity`. -/
theorem place_order_totals_frozen_witness :
    (place_order noFaults exDbTwoRest 7 ⟨5, 3⟩).2.orders
      = exDbTwoRest.orders ++ ordersList 7 ⟨5, 3⟩ exDbTwoRest.nextOrderId
          (groupByRestaurant [(⟨0, 7, 1, 3⟩, ⟨1, 10, 100, true⟩),
            (⟨1, 7, 2, 1⟩, ⟨2, 5, 200, true⟩)])
    ∧ ∀ o ∈ ordersList 7 ⟨5, 3⟩ exDbTwoRest.nextOrderId
        (groupByRestaurant [(⟨0, 7, 1, 3⟩, ⟨1, 10, 100, true⟩),
          (⟨1, 7, 2, 1⟩, ⟨2, 5, 200, true⟩)]),
        o.total_amount =
          (((changeOrderItems (groupChanges 7 ⟨5, 3⟩ exDbTwoRest.nextOrderId
              exDbTwoRest.nextOrderItemId
              (groupByRestaurant [(⟨0, 7, 1, 3⟩, ⟨1, 10, 100, true⟩),
                (⟨1, 7, 2, 1⟩, ⟨2, 5, 200, true⟩)]))).filter
            (fun oi => oi.order_id == o.id)).map
              (fun oi => oi.price * oi.quantity)).sum := by
  have h := place_order_totals_frozen exDbTwoRest 7 ⟨5, 3⟩
    [(⟨0, 7, 1, 3⟩, ⟨1, 10, 100, true⟩), (⟨1, 7, 2, 1⟩, ⟨2, 5, 200, true⟩)]
    (by decide) (by decide)
  exact ⟨h.1, h.2.2.1⟩
